import Mathlib

/-!
Verification of the in-memory user store of the `nestjs-zero` repository.

The store lives in `src/user/user.service.ts` (`UserService`): an array
`users : User[]` together with a counter `currentId`, with operations
`create`, `findAll`, `findOne`, `update`, `remove`.  We embed the store as a
pure structure with explicit state passing; fallible operations return
`Except NotFoundException`.  The update merge `{ ...user, ...dto }` is
modelled by `mergeUser` on an `UpdateUserDto` whose absent fields are `none`.
-/

/-- The `User` entity from `src/user/entities/user.entity.ts`:
`id`, `name`, `email`. -/
structure User where
  id : Nat
  name : String
  email : String
deriving DecidableEq, Repr

/-- `CreateUserDto` from `src/user/dto/create-user.dto.ts`: both fields
required (validation of the field contents is the external validator's
concern and not part of the store). -/
structure CreateUserDto where
  name : String
  email : String
deriving DecidableEq, Repr

/-- `UpdateUserDto` from `src/user/dto/update-user.dto.ts`:
`PartialType(CreateUserDto)`, both fields optional.  `none` models an
absent field. -/
structure UpdateUserDto where
  name : Option String
  email : Option String
deriving DecidableEq, Repr

/-- The `NotFoundException` thrown by the service; carries the message. -/
structure NotFoundException where
  message : String
deriving DecidableEq, Repr

/-- The mutable state of `UserService`: the `users` array and the
`currentId` counter. -/
structure UserService where
  users : List User
  currentId : Nat
deriving DecidableEq, Repr

/-- The initial state of the service: `users = []`, `currentId = 1`. -/
def UserService.init : UserService := { users := [], currentId := 1 }

/-- The message built by the service for a missing id. -/
def notFoundMsg (id : Nat) : NotFoundException :=
  { message := "User with ID " ++ toString id ++ " not found" }

/-- `create(createUserDto)`: assigns `id = currentId`, increments the
counter, pushes the new record at the end, returns it. -/
def UserService.create (s : UserService) (dto : CreateUserDto) :
    User × UserService :=
  let newUser : User := { id := s.currentId, name := dto.name, email := dto.email }
  (newUser, { users := s.users ++ [newUser], currentId := s.currentId + 1 })

/-- `findAll()`: returns the whole collection. -/
def UserService.findAll (s : UserService) : List User :=
  s.users

/-- `findOne(id)`: `users.find(u => u.id === id)`, throwing
`NotFoundException` when no record matches. -/
def UserService.findOne (s : UserService) (id : Nat) :
    Except NotFoundException User :=
  match s.users.find? (fun u => u.id == id) with
  | some user => .ok user
  | none => .error (notFoundMsg id)

/-- The object spread `{ ...user, ...updateUserDto }`: fields present in the
dto override, absent fields keep the record's values; `id` is not a dto
field, so it is kept. -/
def mergeUser (user : User) (dto : UpdateUserDto) : User :=
  { id := user.id
    name := dto.name.getD user.name
    email := dto.email.getD user.email }

/-- The linear search of `update`: `findIndex(u => u.id === id)` followed by
writing the merged record back at the found index.  Returns the merged
record and the new collection, or `none` when no record matches. -/
def updateUsers (id : Nat) (dto : UpdateUserDto) :
    List User → Option (User × List User)
  | [] => none
  | user :: rest =>
    if user.id == id then
      let updatedUser := mergeUser user dto
      some (updatedUser, updatedUser :: rest)
    else
      match updateUsers id dto rest with
      | some (updatedUser, rest') => some (updatedUser, user :: rest')
      | none => none

/-- `update(id, updateUserDto)`: linear search by id; `NotFoundException`
when absent; otherwise merges and writes back in place, returning the
merged record. -/
def UserService.update (s : UserService) (id : Nat) (dto : UpdateUserDto) :
    Except NotFoundException (User × UserService) :=
  match updateUsers id dto s.users with
  | some (updatedUser, users') => .ok (updatedUser, { s with users := users' })
  | none => .error (notFoundMsg id)

/-- The linear search of `remove`: `findIndex(u => u.id === id)` followed by
`splice(index, 1)`.  Returns the new collection, or `none` when no record
matches. -/
def removeUsers (id : Nat) : List User → Option (List User)
  | [] => none
  | user :: rest =>
    if user.id == id then
      some rest
    else
      match removeUsers id rest with
      | some rest' => some (user :: rest')
      | none => none

/-- `remove(id)`: linear search by id; `NotFoundException` when absent;
otherwise removes the record from the array. -/
def UserService.remove (s : UserService) (id : Nat) :
    Except NotFoundException UserService :=
  match removeUsers id s.users with
  | some users' => .ok { s with users := users' }
  | none => .error (notFoundMsg id)

/-- One call into the service, as dispatched by `UserController`. -/
inductive Op where
  | create (dto : CreateUserDto)
  | findOne (id : Nat)
  | update (id : Nat) (dto : UpdateUserDto)
  | remove (id : Nat)
  | findAll
deriving DecidableEq, Repr

/-- The state transition of one call: a throwing (failed) call leaves the
state as it was when the exception propagates; reads do not change it. -/
def step (s : UserService) : Op → UserService
  | .create dto => (s.create dto).2
  | .findOne _ => s
  | .findAll => s
  | .update id dto =>
    match s.update id dto with
    | .ok (_, s') => s'
    | .error _ => s
  | .remove id =>
    match s.remove id with
    | .ok s' => s'
    | .error _ => s

/-- Run a sequence of calls from the initial state. -/
def runOps (ops : List Op) : UserService :=
  ops.foldl step UserService.init

/-- A state the service can actually be in: reached from the initial state
by some sequence of calls. -/
def Reachable (s : UserService) : Prop :=
  ∃ ops : List Op, runOps ops = s

/-- Number of `create` calls in a sequence. -/
def countCreates : List Op → Nat
  | [] => 0
  | .create _ :: rest => countCreates rest + 1
  | _ :: rest => countCreates rest

/-- Whether a call is a `remove` that succeeds (does not throw) in state
`s`. -/
def succRemove (s : UserService) : Op → Bool
  | .remove id => (removeUsers id s.users).isSome
  | _ => false

/-- Number of successful `remove` calls along a run starting in `s`. -/
def countSuccRemovesFrom (s : UserService) : List Op → Nat
  | [] => 0
  | op :: rest =>
    (if succRemove s op then 1 else 0) + countSuccRemovesFrom (step s op) rest

/-- Number of successful `remove` calls along a run from the initial
state. -/
def countSuccRemoves (ops : List Op) : Nat :=
  countSuccRemovesFrom UserService.init ops

/-- The ids returned by the `create` calls of a run starting in `s`, in
call order. -/
def createdIdsFrom (s : UserService) : List Op → List Nat
  | [] => []
  | .create dto :: rest => (s.create dto).1.id :: createdIdsFrom (step s (.create dto)) rest
  | op :: rest => createdIdsFrom (step s op) rest

/-- The ids returned by the `create` calls of a run from the initial state,
in call order. -/
def createdIds (ops : List Op) : List Nat :=
  createdIdsFrom UserService.init ops

/-- The id that a `create` occurring at position `k` of the run assigns:
the counter of the state after the first `k` calls. -/
def assignedIdAt (ops : List Op) (k : Nat) : Nat :=
  (runOps (ops.take k)).currentId

/-! ### Structural lemmas about the linear searches -/

theorem updateUsers_eq_none_iff (id : Nat) (dto : UpdateUserDto) (l : List User) :
    updateUsers id dto l = none ↔ ∀ u ∈ l, u.id ≠ id := by
  induction l with
  | nil => simp [updateUsers]
  | cons u rest ih =>
    by_cases hu : u.id = id
    · simp [updateUsers, hu]
    · rw [updateUsers, if_neg (by simpa using hu)]
      cases hrec : updateUsers id dto rest with
      | none =>
        have hall := ih.mp hrec
        constructor
        · intro _ w hw
          rcases List.mem_cons.mp hw with h1 | h2
          · simp [h1]; exact hu
          · exact hall w h2
        · intro _; rfl
      | some p =>
        obtain ⟨r, rest'⟩ := p
        have hne : ¬ ∀ w ∈ rest, w.id ≠ id := by
          intro hall
          have h2 := ih.mpr hall
          rw [hrec] at h2
          exact Option.noConfusion h2
        constructor
        · intro h; exact absurd h (by simp)
        · intro hall
          exact absurd (fun w hw => hall w (List.mem_cons_of_mem u hw)) hne

theorem updateUsers_eq_some (id : Nat) (dto : UpdateUserDto) (l : List User)
    (r : User) (l' : List User) (h : updateUsers id dto l = some (r, l')) :
    ∃ pre u post, l = pre ++ u :: post ∧ u.id = id ∧ (∀ w ∈ pre, w.id ≠ id) ∧
      r = mergeUser u dto ∧ l' = pre ++ r :: post := by
  induction l generalizing r l' with
  | nil => simp [updateUsers] at h
  | cons u rest ih =>
    by_cases hu : u.id = id
    · rw [updateUsers, if_pos (by simpa using hu)] at h
      obtain ⟨hr, hl⟩ := Prod.mk.injEq .. ▸ Option.some.injEq .. ▸ h
      exact ⟨[], u, rest, rfl, hu, by simp, hr.symm, by simp [← hl, ← hr]⟩
    · rw [updateUsers, if_neg (by simpa using hu)] at h
      cases hrec : updateUsers id dto rest with
      | none => simp [hrec] at h
      | some p =>
        obtain ⟨r0, rest'⟩ := p
        simp only [hrec] at h
        obtain ⟨hr, hl⟩ := Prod.mk.injEq .. ▸ Option.some.injEq .. ▸ h
        obtain ⟨pre, v, post, hsplit, hvid, hpre, hrm, hrest'⟩ := ih r0 rest' hrec
        refine ⟨u :: pre, v, post, by simp [hsplit], hvid, ?_, hr ▸ hrm, ?_⟩
        · intro w hw
          rcases List.mem_cons.mp hw with hwu | hwpre
          · simpa [hwu] using hu
          · exact hpre w hwpre
        · simp [← hl, hrest', hr]

theorem removeUsers_eq_none_iff (id : Nat) (l : List User) :
    removeUsers id l = none ↔ ∀ u ∈ l, u.id ≠ id := by
  induction l with
  | nil => simp [removeUsers]
  | cons u rest ih =>
    by_cases hu : u.id = id
    · simp [removeUsers, hu]
    · rw [removeUsers, if_neg (by simpa using hu)]
      cases hrec : removeUsers id rest with
      | none =>
        have hall := ih.mp hrec
        constructor
        · intro _ w hw
          rcases List.mem_cons.mp hw with h1 | h2
          · simp [h1]; exact hu
          · exact hall w h2
        · intro _; rfl
      | some rest' =>
        have hne : ¬ ∀ w ∈ rest, w.id ≠ id := by
          intro hall
          have h2 := ih.mpr hall
          rw [hrec] at h2
          exact Option.noConfusion h2
        constructor
        · intro h; exact absurd h (by simp)
        · intro hall
          exact absurd (fun w hw => hall w (List.mem_cons_of_mem u hw)) hne

theorem removeUsers_eq_some (id : Nat) (l l' : List User)
    (h : removeUsers id l = some l') :
    ∃ pre u post, l = pre ++ u :: post ∧ u.id = id ∧ (∀ w ∈ pre, w.id ≠ id) ∧
      l' = pre ++ post := by
  induction l generalizing l' with
  | nil => simp [removeUsers] at h
  | cons u rest ih =>
    by_cases hu : u.id = id
    · rw [removeUsers, if_pos (by simpa using hu)] at h
      exact ⟨[], u, rest, rfl, hu, by simp, by simpa using (Option.some.injEq .. ▸ h).symm⟩
    · rw [removeUsers, if_neg (by simpa using hu)] at h
      cases hrec : removeUsers id rest with
      | none => simp [hrec] at h
      | some rest' =>
        simp only [hrec] at h
        obtain ⟨pre, v, post, hsplit, hvid, hpre, hrest'⟩ := ih rest' hrec
        refine ⟨u :: pre, v, post, by simp [hsplit], hvid, ?_, ?_⟩
        · intro w hw
          rcases List.mem_cons.mp hw with hwu | hwpre
          · simpa [hwu] using hu
          · exact hpre w hwpre
        · simp only [← Option.some.injEq .. ▸ h, hrest', List.cons_append]

/-! ### Unfolding lemmas for the fallible operations -/

theorem update_ok_elim (s : UserService) (id : Nat) (dto : UpdateUserDto)
    (r : User) (s' : UserService) (h : s.update id dto = .ok (r, s')) :
    updateUsers id dto s.users = some (r, s'.users) ∧ s'.currentId = s.currentId := by
  unfold UserService.update at h
  cases hu : updateUsers id dto s.users with
  | none => rw [hu] at h; exact Except.noConfusion h
  | some p =>
    obtain ⟨r0, l'⟩ := p
    rw [hu] at h
    injection h with h1
    injection h1 with ha hb
    subst ha
    rw [← hb]
    exact ⟨rfl, rfl⟩

theorem update_ok_intro (s : UserService) (id : Nat) (dto : UpdateUserDto)
    (r : User) (l' : List User) (h : updateUsers id dto s.users = some (r, l')) :
    s.update id dto = .ok (r, { s with users := l' }) := by
  unfold UserService.update
  rw [h]

theorem update_error_iff (s : UserService) (id : Nat) (dto : UpdateUserDto) :
    (∃ e, s.update id dto = .error e) ↔ ∀ u ∈ s.users, u.id ≠ id := by
  rw [← updateUsers_eq_none_iff id dto s.users]
  unfold UserService.update
  cases hu : updateUsers id dto s.users with
  | none => simp
  | some p => obtain ⟨r0, l'⟩ := p; simp

theorem remove_ok_elim (s : UserService) (id : Nat) (s' : UserService)
    (h : s.remove id = .ok s') :
    removeUsers id s.users = some s'.users ∧ s'.currentId = s.currentId := by
  unfold UserService.remove at h
  cases hu : removeUsers id s.users with
  | none => rw [hu] at h; exact Except.noConfusion h
  | some l' =>
    rw [hu] at h
    injection h with h1
    rw [← h1]
    exact ⟨rfl, rfl⟩

theorem remove_ok_intro (s : UserService) (id : Nat) (l' : List User)
    (h : removeUsers id s.users = some l') :
    s.remove id = .ok { s with users := l' } := by
  unfold UserService.remove
  rw [h]

theorem remove_error_iff (s : UserService) (id : Nat) :
    (∃ e, s.remove id = .error e) ↔ ∀ u ∈ s.users, u.id ≠ id := by
  rw [← removeUsers_eq_none_iff id s.users]
  unfold UserService.remove
  cases hu : removeUsers id s.users with
  | none => simp
  | some l' => simp

theorem findOne_error_iff (s : UserService) (id : Nat) :
    (∃ e, s.findOne id = .error e) ↔ ∀ u ∈ s.users, u.id ≠ id := by
  unfold UserService.findOne
  cases hf : s.users.find? (fun u => u.id == id) with
  | none =>
    simp only [List.find?_eq_none] at hf
    simpa using hf
  | some u =>
    have hmem := List.mem_of_find?_eq_some hf
    have hid : u.id = id := by simpa using List.find?_some hf
    simp only []
    constructor
    · rintro ⟨e, he⟩; exact Except.noConfusion he
    · intro hall; exact absurd hid (hall u hmem)

/-! ### Consequences of the structural lemmas -/

theorem updateUsers_length (id : Nat) (dto : UpdateUserDto) (l : List User)
    (r : User) (l' : List User) (h : updateUsers id dto l = some (r, l')) :
    l'.length = l.length := by
  obtain ⟨pre, u, post, hl, _, _, _, hl'⟩ := updateUsers_eq_some id dto l r l' h
  simp [hl, hl']

theorem updateUsers_map_id (id : Nat) (dto : UpdateUserDto) (l : List User)
    (r : User) (l' : List User) (h : updateUsers id dto l = some (r, l')) :
    l'.map User.id = l.map User.id := by
  obtain ⟨pre, u, post, hl, _, _, hr, hl'⟩ := updateUsers_eq_some id dto l r l' h
  simp [hl, hl', hr, mergeUser]

theorem removeUsers_length (id : Nat) (l l' : List User)
    (h : removeUsers id l = some l') : l'.length + 1 = l.length := by
  obtain ⟨pre, u, post, hl, _, _, hl'⟩ := removeUsers_eq_some id l l' h
  simp [hl, hl']
  omega

theorem removeUsers_sublist (id : Nat) (l l' : List User)
    (h : removeUsers id l = some l') : List.Sublist l' l := by
  obtain ⟨pre, u, post, hl, _, _, hl'⟩ := removeUsers_eq_some id l l' h
  rw [hl, hl']
  exact (List.sublist_cons_self u post).append_left pre

theorem removeUsers_isSome_iff (id : Nat) (l : List User) :
    (removeUsers id l).isSome ↔ ∃ u ∈ l, u.id = id := by
  rw [← Option.ne_none_iff_isSome, ne_eq, removeUsers_eq_none_iff]
  push_neg
  simp

theorem updateUsers_isSome_iff (id : Nat) (dto : UpdateUserDto) (l : List User) :
    (updateUsers id dto l).isSome ↔ ∃ u ∈ l, u.id = id := by
  rw [← Option.ne_none_iff_isSome, ne_eq, updateUsers_eq_none_iff]
  push_neg
  simp

/-! ### The id counter along a run -/

theorem step_currentId (s : UserService) (op : Op) :
    (step s op).currentId = s.currentId + countCreates [op] := by
  cases op with
  | create dto => simp [step, UserService.create, countCreates]
  | findOne id => simp [step, countCreates]
  | findAll => simp [step, countCreates]
  | update id dto =>
    simp only [step, countCreates]
    cases h : s.update id dto with
    | ok p =>
      obtain ⟨r, s'⟩ := p
      exact (update_ok_elim s id dto r s' h).2
    | error e => rfl
  | remove id =>
    simp only [step, countCreates]
    cases h : s.remove id with
    | ok s' => exact (remove_ok_elim s id s' h).2
    | error e => rfl

theorem countCreates_cons (op : Op) (rest : List Op) :
    countCreates (op :: rest) = countCreates [op] + countCreates rest := by
  cases op with
  | create dto => simp [countCreates]; omega
  | findOne id => simp [countCreates]
  | findAll => simp [countCreates]
  | update id dto => simp [countCreates]
  | remove id => simp [countCreates]

theorem countCreates_append (l1 l2 : List Op) :
    countCreates (l1 ++ l2) = countCreates l1 + countCreates l2 := by
  induction l1 with
  | nil => simp [countCreates]
  | cons op rest ih =>
    rw [List.cons_append, countCreates_cons, ih, countCreates_cons op rest]
    omega

theorem foldl_step_currentId (ops : List Op) :
    ∀ s : UserService, (ops.foldl step s).currentId = s.currentId + countCreates ops := by
  induction ops with
  | nil => intro s; simp [countCreates]
  | cons op rest ih =>
    intro s
    rw [List.foldl_cons, ih (step s op), step_currentId, countCreates_cons op rest]
    omega

theorem runOps_currentId (ops : List Op) :
    (runOps ops).currentId = 1 + countCreates ops :=
  foldl_step_currentId ops UserService.init

theorem runOps_take_succ (ops : List Op) (k : Nat) (op : Op)
    (h : ops[k]? = some op) :
    runOps (ops.take (k + 1)) = step (runOps (ops.take k)) op := by
  unfold runOps
  rw [List.take_succ, h, Option.toList_some, List.foldl_append, List.foldl_cons,
    List.foldl_nil]

theorem assignedIdAt_mono (ops : List Op) (j k : Nat) (h : j ≤ k) :
    assignedIdAt ops j ≤ assignedIdAt ops k := by
  unfold assignedIdAt
  rw [runOps_currentId, runOps_currentId]
  have htk : ops.take j = (ops.take k).take j := by rw [List.take_take, Nat.min_eq_left h]
  have hsplit : countCreates (ops.take k) =
      countCreates ((ops.take k).take j) + countCreates ((ops.take k).drop j) := by
    rw [← countCreates_append, List.take_append_drop]
  rw [htk, hsplit]
  omega

/-! ### The ids handed out by `create` -/

theorem createdIdsFrom_eq (ops : List Op) :
    ∀ s : UserService, createdIdsFrom s ops = List.range' s.currentId (countCreates ops) := by
  induction ops with
  | nil => intro s; simp [createdIdsFrom, countCreates]
  | cons op rest ih =>
    intro s
    cases op with
    | create dto =>
      have h0 : createdIdsFrom s (Op.create dto :: rest) =
          (s.create dto).1.id :: createdIdsFrom (step s (.create dto)) rest := rfl
      rw [h0, ih]
      have h1 : (s.create dto).1.id = s.currentId := rfl
      have h2 : (step s (.create dto)).currentId = s.currentId + 1 := rfl
      have h3 : countCreates (Op.create dto :: rest) = countCreates rest + 1 := rfl
      rw [h1, h2, h3, List.range'_succ]
    | findOne id =>
      have h0 : createdIdsFrom s (Op.findOne id :: rest) =
          createdIdsFrom (step s (.findOne id)) rest := rfl
      rw [h0, ih]
      rfl
    | findAll =>
      have h0 : createdIdsFrom s (Op.findAll :: rest) =
          createdIdsFrom (step s .findAll) rest := rfl
      rw [h0, ih]
      rfl
    | update id dto =>
      have h0 : createdIdsFrom s (Op.update id dto :: rest) =
          createdIdsFrom (step s (.update id dto)) rest := rfl
      have h2 : (step s (.update id dto)).currentId = s.currentId := by
        rw [step_currentId]; rfl
      rw [h0, ih, h2]
      rfl
    | remove id =>
      have h0 : createdIdsFrom s (Op.remove id :: rest) =
          createdIdsFrom (step s (.remove id)) rest := rfl
      have h2 : (step s (.remove id)).currentId = s.currentId := by
        rw [step_currentId]; rfl
      rw [h0, ih, h2]
      rfl

theorem createdIds_eq_range' (ops : List Op) :
    createdIds ops = List.range' 1 (countCreates ops) :=
  createdIdsFrom_eq ops UserService.init

/-! ### The reachable-state invariant: ids below the counter, no duplicates -/

/-- Invariant of every reachable service state: every stored id is below
the counter, and no two stored records share an id. -/
def InvIds (s : UserService) : Prop :=
  (∀ i ∈ s.users.map User.id, i < s.currentId) ∧ (s.users.map User.id).Nodup

theorem invIds_init : InvIds UserService.init := by
  constructor <;> simp [UserService.init]

theorem invIds_create (s : UserService) (dto : CreateUserDto) (h : InvIds s) :
    InvIds (s.create dto).2 := by
  obtain ⟨hlt, hnd⟩ := h
  constructor
  · intro i hi
    simp only [UserService.create, List.map_append, List.mem_append] at hi
    rcases hi with hi | hi
    · exact Nat.lt_succ_of_lt (hlt i hi)
    · simp only [List.map_cons, List.map_nil, List.mem_singleton] at hi
      rw [hi]
      exact Nat.lt_succ_self s.currentId
  · simp only [UserService.create, List.map_append, List.map_cons, List.map_nil]
    rw [List.nodup_append]
    refine ⟨hnd, List.nodup_singleton _, ?_⟩
    intro i hi hmem
    simp only [List.mem_singleton] at hmem
    exact absurd (hlt i hi) (by simp [hmem])

theorem invIds_step (s : UserService) (op : Op) (h : InvIds s) :
    InvIds (step s op) := by
  cases op with
  | create dto => exact invIds_create s dto h
  | findOne id => exact h
  | findAll => exact h
  | update id dto =>
    simp only [step]
    cases hx : s.update id dto with
    | error e => exact h
    | ok p =>
      obtain ⟨r, s'⟩ := p
      obtain ⟨hsome, hcid⟩ := update_ok_elim s id dto r s' hx
      have hmap := updateUsers_map_id id dto s.users r s'.users hsome
      obtain ⟨hlt, hnd⟩ := h
      exact ⟨fun i hi => hcid ▸ hlt i (hmap ▸ hi), hmap ▸ hnd⟩
  | remove id =>
    simp only [step]
    cases hx : s.remove id with
    | error e => exact h
    | ok s' =>
      obtain ⟨hsome, hcid⟩ := remove_ok_elim s id s' hx
      have hsub := (removeUsers_sublist id s.users s'.users hsome).map User.id
      obtain ⟨hlt, hnd⟩ := h
      exact ⟨fun i hi => hcid ▸ hlt i (hsub.mem hi), hnd.sublist hsub⟩

theorem invIds_foldl (ops : List Op) :
    ∀ s : UserService, InvIds s → InvIds (ops.foldl step s) := by
  induction ops with
  | nil => intro s h; exact h
  | cons op rest ih => intro s h; exact ih (step s op) (invIds_step s op h)

theorem reachable_invIds (s : UserService) (h : Reachable s) : InvIds s := by
  obtain ⟨ops, hops⟩ := h
  exact hops ▸ invIds_foldl ops UserService.init invIds_init

/-! ### Length accounting -/

theorem foldl_step_length (ops : List Op) :
    ∀ s : UserService,
      (ops.foldl step s).users.length + countSuccRemovesFrom s ops =
        s.users.length + countCreates ops := by
  induction ops with
  | nil => intro s; simp [countSuccRemovesFrom, countCreates]
  | cons op rest ih =>
    intro s
    have hrest := ih (step s op)
    have hcnt : countSuccRemovesFrom s (op :: rest) =
        (if succRemove s op then 1 else 0) + countSuccRemovesFrom (step s op) rest := rfl
    have hstep : (step s op).users.length + (if succRemove s op then 1 else 0) =
        s.users.length + countCreates [op] := by
      cases op with
      | create dto => simp [step, UserService.create, succRemove, countCreates]
      | findOne id => simp [step, succRemove, countCreates]
      | findAll => simp [step, succRemove, countCreates]
      | update id dto =>
        simp only [step, succRemove, countCreates, if_false]
        cases hx : s.update id dto with
        | error e => rfl
        | ok p =>
          obtain ⟨r, s'⟩ := p
          obtain ⟨hsome, _⟩ := update_ok_elim s id dto r s' hx
          simp [updateUsers_length id dto s.users r s'.users hsome]
      | remove id =>
        simp only [step, succRemove, countCreates]
        cases hx : s.remove id with
        | error e =>
          have : removeUsers id s.users = none := by
            unfold UserService.remove at hx
            cases hr : removeUsers id s.users with
            | none => rfl
            | some l' => rw [hr] at hx; exact Except.noConfusion hx
          simp [this]
        | ok s' =>
          obtain ⟨hsome, _⟩ := remove_ok_elim s id s' hx
          have hlen := removeUsers_length id s.users s'.users hsome
          simp [hsome, Option.isSome]
          omega
    rw [List.foldl_cons, hcnt, countCreates_cons op rest]
    omega

/-! ### The claims -/

/-- Claim C9: starting from the empty store, the ids handed out by the
`create` calls of any operation sequence are exactly the consecutive
integers 1, 2, 3, …: the list of ids returned by the creates, in call
order, is `[1, 2, …, countCreates ops]`, so the n-th create (counting
every create since the start, regardless of intervening deletes) returns
id n. -/
theorem create_ids_consecutive (ops : List Op) :
    createdIds ops = List.range' 1 (countCreates ops) ∧
    ∀ n : Nat, n < countCreates ops → (createdIds ops)[n]? = some (n + 1) := by
  refine ⟨createdIds_eq_range' ops, fun n hn => ?_⟩
  rw [createdIds_eq_range' ops, List.getElem?_range' 1 1 hn]
  simp [Nat.add_comm]

/-- Witness for `create_ids_consecutive` at a concrete run. -/
theorem create_ids_consecutive_witness :
    (0 : Nat) < countCreates [Op.create ⟨"a", "a@e"⟩, Op.remove 1, Op.create ⟨"b", "b@e"⟩] ∧
    (createdIds [Op.create ⟨"a", "a@e"⟩, Op.remove 1, Op.create ⟨"b", "b@e"⟩])[0]? = some 1 :=
  ⟨by decide,
    (create_ids_consecutive [Op.create ⟨"a", "a@e"⟩, Op.remove 1,
      Op.create ⟨"b", "b@e"⟩]).2 0 (by decide)⟩

/-- Claim C1: along any operation sequence from the empty store, the id
assigned by a `create` at position `k` is at least 1, is strictly greater
than the id assigned by any `create` at an earlier position `j`, and never
equals the id of a record that an earlier `remove` at position `j` deleted
(the removed id is never reused). -/
theorem create_ids_monotone_never_reused (ops : List Op) (j k : Nat) (hjk : j < k)
    (dtok : CreateUserDto) (_hk : ops[k]? = some (.create dtok)) :
    1 ≤ assignedIdAt ops k ∧
    (∀ dtoj : CreateUserDto, ops[j]? = some (.create dtoj) →
      assignedIdAt ops j < assignedIdAt ops k) ∧
    (∀ d : Nat, ops[j]? = some (.remove d) →
      (∃ u ∈ (runOps (ops.take j)).users, u.id = d) →
      assignedIdAt ops k ≠ d) := by
  refine ⟨?_, ?_, ?_⟩
  · show 1 ≤ (runOps (ops.take k)).currentId
    rw [runOps_currentId]
    omega
  · intro dtoj hj
    have hstep : assignedIdAt ops (j + 1) = assignedIdAt ops j + 1 := by
      show (runOps (ops.take (j + 1))).currentId = _
      rw [runOps_take_succ ops j _ hj]
      rfl
    have hmono := assignedIdAt_mono ops (j + 1) k hjk
    omega
  · intro d hj ⟨u, humem, huid⟩
    have hinv := reachable_invIds (runOps (ops.take j)) ⟨ops.take j, rfl⟩
    have hd : d < (runOps (ops.take j)).currentId :=
      huid ▸ hinv.1 u.id (List.mem_map_of_mem User.id humem)
    have hmono := assignedIdAt_mono ops j k (Nat.le_of_lt hjk)
    have : assignedIdAt ops j = (runOps (ops.take j)).currentId := rfl
    omega

/-- Witness for `create_ids_monotone_never_reused`: the run
`[create a, remove 1, create b]` with `j = 0`, `k = 2`. -/
theorem create_ids_monotone_never_reused_witness :
    (0 : Nat) < 2 ∧
    ([Op.create ⟨"a", "a@e"⟩, Op.remove 1, Op.create ⟨"b", "b@e"⟩][2]? =
      some (.create ⟨"b", "b@e"⟩)) ∧
    (1 ≤ assignedIdAt [Op.create ⟨"a", "a@e"⟩, Op.remove 1, Op.create ⟨"b", "b@e"⟩] 2 ∧
     (∀ dtoj : CreateUserDto,
        [Op.create ⟨"a", "a@e"⟩, Op.remove 1, Op.create ⟨"b", "b@e"⟩][0]? =
          some (.create dtoj) →
        assignedIdAt [Op.create ⟨"a", "a@e"⟩, Op.remove 1, Op.create ⟨"b", "b@e"⟩] 0 <
          assignedIdAt [Op.create ⟨"a", "a@e"⟩, Op.remove 1, Op.create ⟨"b", "b@e"⟩] 2) ∧
     (∀ d : Nat,
        [Op.create ⟨"a", "a@e"⟩, Op.remove 1, Op.create ⟨"b", "b@e"⟩][0]? =
          some (.remove d) →
        (∃ u ∈ (runOps ([Op.create ⟨"a", "a@e"⟩, Op.remove 1,
            Op.create ⟨"b", "b@e"⟩].take 0)).users, u.id = d) →
        assignedIdAt [Op.create ⟨"a", "a@e"⟩, Op.remove 1, Op.create ⟨"b", "b@e"⟩] 2 ≠ d)) :=
  ⟨by decide, by decide,
    create_ids_monotone_never_reused
      [Op.create ⟨"a", "a@e"⟩, Op.remove 1, Op.create ⟨"b", "b@e"⟩] 0 2
      (by decide) ⟨"b", "b@e"⟩ (by decide)⟩

/-- Claim C5: starting from the empty store, the length of `findAll` after
any operation sequence equals the number of `create` calls minus the
number of `remove` calls that succeeded (and the latter never exceeds the
former). -/
theorem list_length_creates_minus_deletes (ops : List Op) :
    (runOps ops).findAll.length = countCreates ops - countSuccRemoves ops ∧
    countSuccRemoves ops ≤ countCreates ops := by
  have h := foldl_step_length ops UserService.init
  have h0 : UserService.init.users.length = 0 := rfl
  have h1 : countSuccRemoves ops = countSuccRemovesFrom UserService.init ops := rfl
  have h2 : (runOps ops).users.length = (ops.foldl step UserService.init).users.length := rfl
  constructor
  · show (runOps ops).users.length = _
    rw [h2, h1]
    omega
  · rw [h1]
    omega

/-- Claim C10: a `findOne`, `update` or `remove` call with an id that
matches no stored record leaves the service state (collection and counter)
completely unchanged. -/
theorem failed_calls_leave_state_unchanged (s : UserService) (id : Nat)
    (dto : UpdateUserDto) (h : ∀ u ∈ s.users, u.id ≠ id) :
    step s (.findOne id) = s ∧ step s (.update id dto) = s ∧ step s (.remove id) = s := by
  refine ⟨rfl, ?_, ?_⟩
  · obtain ⟨e, he⟩ := (update_error_iff s id dto).mpr h
    simp [step, he]
  · obtain ⟨e, he⟩ := (remove_error_iff s id).mpr h
    simp [step, he]

/-- Witness for `failed_calls_leave_state_unchanged`: a one-record store
and a missing id. -/
theorem failed_calls_leave_state_unchanged_witness :
    (∀ u ∈ (UserService.mk [⟨1, "a", "a@e"⟩] 2).users, u.id ≠ 5) ∧
    (step (UserService.mk [⟨1, "a", "a@e"⟩] 2) (.findOne 5) =
        UserService.mk [⟨1, "a", "a@e"⟩] 2 ∧
      step (UserService.mk [⟨1, "a", "a@e"⟩] 2) (.update 5 ⟨some "x", none⟩) =
        UserService.mk [⟨1, "a", "a@e"⟩] 2 ∧
      step (UserService.mk [⟨1, "a", "a@e"⟩] 2) (.remove 5) =
        UserService.mk [⟨1, "a", "a@e"⟩] 2) :=
  ⟨by decide,
    failed_calls_leave_state_unchanged (UserService.mk [⟨1, "a", "a@e"⟩] 2) 5
      ⟨some "x", none⟩ (by decide)⟩

/-- Claim C2: a successful `update id dto` touches exactly one record: the
collection splits as `pre ++ u :: post` with `u` the (first) record of the
given id, the new collection is `pre ++ r :: post` (same position, all
other records untouched), the returned record `r` keeps `u`'s id, keeps
every field absent from the dto, takes every field present in the dto, is
exactly the record now stored, and the counter is unchanged. -/
theorem update_merges_only_given_fields (s : UserService) (id : Nat)
    (dto : UpdateUserDto) (r : User) (s' : UserService)
    (h : s.update id dto = .ok (r, s')) :
    ∃ pre u post,
      s.users = pre ++ u :: post ∧ u.id = id ∧ (∀ w ∈ pre, w.id ≠ id) ∧
      s'.users = pre ++ r :: post ∧
      r.id = u.id ∧
      (dto.name = none → r.name = u.name) ∧
      (∀ x, dto.name = some x → r.name = x) ∧
      (dto.email = none → r.email = u.email) ∧
      (∀ x, dto.email = some x → r.email = x) ∧
      s'.currentId = s.currentId := by
  obtain ⟨hsome, hcid⟩ := update_ok_elim s id dto r s' h
  obtain ⟨pre, u, post, hsplit, huid, hpre, hr, hl'⟩ :=
    updateUsers_eq_some id dto s.users r s'.users hsome
  refine ⟨pre, u, post, hsplit, huid, hpre, hl', ?_, ?_, ?_, ?_, ?_, hcid⟩
  · rw [hr]; rfl
  · intro hn; rw [hr]; simp [mergeUser, hn]
  · intro x hx; rw [hr]; simp [mergeUser, hx]
  · intro hn; rw [hr]; simp [mergeUser, hn]
  · intro x hx; rw [hr]; simp [mergeUser, hx]

/-- Witness for `update_merges_only_given_fields`: updating only `name`
of record 2 in a two-record store. -/
theorem update_merges_only_given_fields_witness :
    (UserService.mk [⟨1, "John", "j@e"⟩, ⟨2, "Jane", "ja@e"⟩] 3).update 2
        ⟨some "X", none⟩ =
      .ok (⟨2, "X", "ja@e"⟩, UserService.mk [⟨1, "John", "j@e"⟩, ⟨2, "X", "ja@e"⟩] 3) ∧
    (∃ pre u post,
      (UserService.mk [⟨1, "John", "j@e"⟩, ⟨2, "Jane", "ja@e"⟩] 3).users =
        pre ++ u :: post ∧ u.id = 2 ∧ (∀ w ∈ pre, w.id ≠ 2) ∧
      (UserService.mk [⟨1, "John", "j@e"⟩, ⟨2, "X", "ja@e"⟩] 3).users =
        pre ++ (⟨2, "X", "ja@e"⟩ : User) :: post ∧
      (⟨2, "X", "ja@e"⟩ : User).id = u.id ∧
      ((⟨some "X", none⟩ : UpdateUserDto).name = none →
        (⟨2, "X", "ja@e"⟩ : User).name = u.name) ∧
      (∀ x, (⟨some "X", none⟩ : UpdateUserDto).name = some x →
        (⟨2, "X", "ja@e"⟩ : User).name = x) ∧
      ((⟨some "X", none⟩ : UpdateUserDto).email = none →
        (⟨2, "X", "ja@e"⟩ : User).email = u.email) ∧
      (∀ x, (⟨some "X", none⟩ : UpdateUserDto).email = some x →
        (⟨2, "X", "ja@e"⟩ : User).email = x) ∧
      (UserService.mk [⟨1, "John", "j@e"⟩, ⟨2, "X", "ja@e"⟩] 3).currentId =
        (UserService.mk [⟨1, "John", "j@e"⟩, ⟨2, "Jane", "ja@e"⟩] 3).currentId) :=
  ⟨by rfl,
    update_merges_only_given_fields
      (UserService.mk [⟨1, "John", "j@e"⟩, ⟨2, "Jane", "ja@e"⟩] 3) 2
      ⟨some "X", none⟩ ⟨2, "X", "ja@e"⟩
      (UserService.mk [⟨1, "John", "j@e"⟩, ⟨2, "X", "ja@e"⟩] 3) (by rfl)⟩

/-- Claim C3: `findOne`, `update` and `remove` fail (with the
`NotFoundException`) if and only if no stored record has the given id;
when a matching record exists, `findOne` returns a stored record with that
id, `update` returns the merge of such a record with the dto, and `remove`
shrinks the collection by exactly one. -/
theorem lookup_fails_iff_absent (s : UserService) (id : Nat) (dto : UpdateUserDto) :
    ((∃ e, s.findOne id = .error e) ↔ ∀ u ∈ s.users, u.id ≠ id) ∧
    ((∃ e, s.update id dto = .error e) ↔ ∀ u ∈ s.users, u.id ≠ id) ∧
    ((∃ e, s.remove id = .error e) ↔ ∀ u ∈ s.users, u.id ≠ id) ∧
    ((∃ u ∈ s.users, u.id = id) →
      (∃ u, s.findOne id = .ok u ∧ u ∈ s.users ∧ u.id = id) ∧
      (∃ u r s', s.update id dto = .ok (r, s') ∧ u ∈ s.users ∧ u.id = id ∧
        r = mergeUser u dto) ∧
      (∃ s', s.remove id = .ok s' ∧ s'.users.length + 1 = s.users.length)) := by
  refine ⟨findOne_error_iff s id, update_error_iff s id dto, remove_error_iff s id, ?_⟩
  intro hmem
  refine ⟨?_, ?_, ?_⟩
  · cases hf : s.users.find? (fun u => u.id == id) with
    | none =>
      rw [List.find?_eq_none] at hf
      obtain ⟨u, hu, huid⟩ := hmem
      exact absurd (by simpa using huid) (hf u hu)
    | some u =>
      refine ⟨u, ?_, List.mem_of_find?_eq_some hf, by simpa using List.find?_some hf⟩
      unfold UserService.findOne
      rw [hf]
  · have hsome := (updateUsers_isSome_iff id dto s.users).mpr hmem
    obtain ⟨p, hp⟩ := Option.isSome_iff_exists.mp hsome
    obtain ⟨r, l'⟩ := p
    obtain ⟨pre, u, post, hsplit, huid, _, hr, _⟩ :=
      updateUsers_eq_some id dto s.users r l' hp
    exact ⟨u, r, { s with users := l' }, update_ok_intro s id dto r l' hp,
      hsplit ▸ List.mem_append_right pre (List.mem_cons_self u post), huid, hr⟩
  · have hsome := (removeUsers_isSome_iff id s.users).mpr hmem
    obtain ⟨l', hl'⟩ := Option.isSome_iff_exists.mp hsome
    exact ⟨{ s with users := l' }, remove_ok_intro s id l' hl',
      removeUsers_length id s.users l' hl'⟩

/-- Witness for `lookup_fails_iff_absent`: the success branch on a
one-record store. -/
theorem lookup_fails_iff_absent_witness :
    (∃ u, (UserService.mk [⟨1, "a", "a@e"⟩] 2).findOne 1 = .ok u ∧
      u ∈ (UserService.mk [⟨1, "a", "a@e"⟩] 2).users ∧ u.id = 1) ∧
    (∃ u r s', (UserService.mk [⟨1, "a", "a@e"⟩] 2).update 1 ⟨none, some "n@e"⟩ =
        .ok (r, s') ∧
      u ∈ (UserService.mk [⟨1, "a", "a@e"⟩] 2).users ∧ u.id = 1 ∧
      r = mergeUser u ⟨none, some "n@e"⟩) ∧
    (∃ s', (UserService.mk [⟨1, "a", "a@e"⟩] 2).remove 1 = .ok s' ∧
      s'.users.length + 1 = (UserService.mk [⟨1, "a", "a@e"⟩] 2).users.length) :=
  (lookup_fails_iff_absent (UserService.mk [⟨1, "a", "a@e"⟩] 2) 1
    ⟨none, some "n@e"⟩).2.2.2 (by decide)

/-- Claim C4: from any reachable state, `findOne` on the id just returned
by `create` succeeds and returns exactly the created record. -/
theorem get_after_create (s : UserService) (h : Reachable s) (dto : CreateUserDto) :
    (s.create dto).2.findOne (s.create dto).1.id = .ok (s.create dto).1 := by
  obtain ⟨hlt, _⟩ := reachable_invIds s h
  have hid : (s.create dto).1.id = s.currentId := rfl
  have hnone : s.users.find? (fun u => u.id == s.currentId) = none := by
    rw [List.find?_eq_none]
    intro x hx
    have hxlt := hlt x.id (List.mem_map_of_mem User.id hx)
    simp only [beq_iff_eq]
    omega
  have happ : (s.create dto).2.users = s.users ++ [(s.create dto).1] := rfl
  have hfind : (s.create dto).2.users.find? (fun u => u.id == (s.create dto).1.id) =
      some (s.create dto).1 := by
    rw [happ, hid, List.find?_append, hnone, Option.none_or]
    simp [List.find?, hid]
  unfold UserService.findOne
  rw [hfind]

/-- Witness for `get_after_create`: creating in the initial (empty,
reachable) store and reading the record back. -/
theorem get_after_create_witness :
    Reachable UserService.init ∧
    (UserService.init.create ⟨"John", "j@e"⟩).2.findOne
        (UserService.init.create ⟨"John", "j@e"⟩).1.id =
      .ok (UserService.init.create ⟨"John", "j@e"⟩).1 :=
  ⟨⟨[], rfl⟩, get_after_create UserService.init ⟨[], rfl⟩ ⟨"John", "j@e"⟩⟩

/-- Claim C6: `findAll` returns the stored records in insertion order and
the operations preserve that order: `create` appends its new record at the
end, a successful `update` replaces one record in place leaving every
other record at its position, and a successful `remove` deletes one record
without reordering the rest. -/
theorem insertion_order_preserved (s : UserService) :
    (∀ dto : CreateUserDto,
      ((s.create dto).2).findAll = s.findAll ++ [(s.create dto).1]) ∧
    (∀ id dto r s', s.update id dto = .ok (r, s') →
      ∃ pre u post, s.findAll = pre ++ u :: post ∧ s'.findAll = pre ++ r :: post) ∧
    (∀ id s', s.remove id = .ok s' →
      ∃ pre u post, s.findAll = pre ++ u :: post ∧ s'.findAll = pre ++ post) := by
  refine ⟨fun dto => rfl, ?_, ?_⟩
  · intro id dto r s' h
    obtain ⟨hsome, _⟩ := update_ok_elim s id dto r s' h
    obtain ⟨pre, u, post, hsplit, _, _, _, hl'⟩ :=
      updateUsers_eq_some id dto s.users r s'.users hsome
    exact ⟨pre, u, post, hsplit, hl'⟩
  · intro id s' h
    obtain ⟨hsome, _⟩ := remove_ok_elim s id s' h
    obtain ⟨pre, u, post, hsplit, _, _, hl'⟩ :=
      removeUsers_eq_some id s.users s'.users hsome
    exact ⟨pre, u, post, hsplit, hl'⟩

/-- Witness for `insertion_order_preserved` on a one-record store. -/
theorem insertion_order_preserved_witness :
    ((UserService.mk [⟨1, "a", "a@e"⟩] 2).create ⟨"b", "b@e"⟩).2.findAll =
      (UserService.mk [⟨1, "a", "a@e"⟩] 2).findAll ++
        [((UserService.mk [⟨1, "a", "a@e"⟩] 2).create ⟨"b", "b@e"⟩).1] ∧
    (∃ pre u post,
      (UserService.mk [⟨1, "a", "a@e"⟩] 2).findAll = pre ++ u :: post ∧
      (UserService.mk [⟨1, "x", "a@e"⟩] 2).findAll =
        pre ++ (⟨1, "x", "a@e"⟩ : User) :: post) ∧
    (∃ pre u post,
      (UserService.mk [⟨1, "a", "a@e"⟩] 2).findAll = pre ++ u :: post ∧
      (UserService.mk [] 2).findAll = pre ++ post) :=
  ⟨(insertion_order_preserved (UserService.mk [⟨1, "a", "a@e"⟩] 2)).1 ⟨"b", "b@e"⟩,
   (insertion_order_preserved (UserService.mk [⟨1, "a", "a@e"⟩] 2)).2.1 1
     ⟨some "x", none⟩ ⟨1, "x", "a@e"⟩ (UserService.mk [⟨1, "x", "a@e"⟩] 2) (by rfl),
   (insertion_order_preserved (UserService.mk [⟨1, "a", "a@e"⟩] 2)).2.2 1
     (UserService.mk [] 2) (by rfl)⟩

/-- Claim C7: in a reachable state holding a record with the given id,
`remove` succeeds, and calling `remove` again with the same id fails with
the `NotFoundException`; it never silently succeeds. -/
theorem delete_twice_second_fails (s : UserService) (id : Nat) (h : Reachable s)
    (hmem : ∃ u ∈ s.users, u.id = id) :
    ∃ s', s.remove id = .ok s' ∧ s'.remove id = .error (notFoundMsg id) := by
  have hsome := (removeUsers_isSome_iff id s.users).mpr hmem
  obtain ⟨l', hl'⟩ := Option.isSome_iff_exists.mp hsome
  obtain ⟨pre, u, post, hsplit, huid, hpre, hl'eq⟩ :=
    removeUsers_eq_some id s.users l' hl'
  obtain ⟨_, hnd⟩ := reachable_invIds s h
  rw [hsplit] at hnd
  simp only [List.map_append, List.map_cons] at hnd
  have hnd2 := hnd.of_append_right
  have hunotin : u.id ∉ post.map User.id := (List.nodup_cons.mp hnd2).1
  have hnone : removeUsers id l' = none := by
    rw [removeUsers_eq_none_iff]
    intro w hw
    rw [hl'eq] at hw
    rcases List.mem_append.mp hw with hwpre | hwpost
    · exact hpre w hwpre
    · intro hwid
      have hmm : w.id ∈ post.map User.id := List.mem_map_of_mem User.id hwpost
      rw [hwid, ← huid] at hmm
      exact hunotin hmm
  refine ⟨{ s with users := l' }, remove_ok_intro s id l' hl', ?_⟩
  unfold UserService.remove
  rw [show ({ s with users := l' } : UserService).users = l' from rfl, hnone]

/-- Witness for `delete_twice_second_fails`: delete the only record of a
reachable one-record store twice. -/
theorem delete_twice_second_fails_witness :
    ∃ s', (UserService.mk [⟨1, "a", "a@e"⟩] 2).remove 1 = .ok s' ∧
      s'.remove 1 = .error (notFoundMsg 1) :=
  delete_twice_second_fails (UserService.mk [⟨1, "a", "a@e"⟩] 2) 1
    ⟨[Op.create ⟨"a", "a@e"⟩], by decide⟩ (by decide)
